import Mathlib

/-!
# Verification of `meta_git_lib` core algorithms

A shallow embedding of the core data structures and operations of the
`meta_git_lib` crate (clone scheduler, URL canonicaliser, worktree git
operations, snapshot restore, registry TTL arithmetic), together with
theorems settling the behavioural claims about them.

External collaborators (the `git` binary, the filesystem, the manifest
parser from `meta_core::config`, and the RFC3339 parser of `chrono`) are
modelled as oracle functions supplied as parameters: their behaviour is a
contract, not a subject of the embedding.
-/

namespace MetaGit

/-! ## Clone scheduler (`src/clone_queue.rs`)

Paths (`PathBuf`) are modelled as lists of components; `Path::join`
appends a component.  The `HashSet<PathBuf>` fields are modelled as lists
used only through membership, with insertion consing the element. -/

/-- A clone task (`CloneTask` in `clone_queue.rs`). -/

structure CloneTask where
  name : String
  url : String
  target_path : List String
  depth_level : Nat
  is_meta : Bool
deriving DecidableEq, Repr

/-- The scheduler state (`CloneQueue` in `clone_queue.rs`).  The mutexes
and atomics guard plain data; the sequential model carries that data
directly. -/

structure CloneQueue where
  pending : List CloneTask
  completed : List (List String)
  failed : List (List String)
  total_discovered : Nat
  total_completed : Nat
  git_depth : Option String
  meta_depth : Option Nat
deriving DecidableEq, Repr

/-- `CloneQueue::new`. -/

def CloneQueue.new (git_depth : Option String) (meta_depth : Option Nat) : CloneQueue :=
  { pending := [], completed := [], failed := [],
    total_discovered := 0, total_completed := 0,
    git_depth := git_depth, meta_depth := meta_depth }

/-- `CloneQueue::push` (clone_queue.rs lines 55-78): admit a task unless
its target path is already completed or already pending; on admission
append to `pending` and bump `total_discovered`. -/

def CloneQueue.push (q : CloneQueue) (task : CloneTask) : Bool × CloneQueue :=
  if q.completed.contains task.target_path then
    (false, q)
  else if q.pending.any (fun t => t.target_path == task.target_path) then
    (false, q)
  else
    (true, { q with pending := q.pending ++ [task],
                    total_discovered := q.total_discovered + 1 })

/-- `CloneQueue::take_one`: pop the tail of the pending vector. -/

def CloneQueue.take_one (q : CloneQueue) : Option CloneTask × CloneQueue :=
  (q.pending.getLast?, { q with pending := q.pending.dropLast })

/-- `CloneQueue::mark_failed`: bump `total_completed` and record the
target path in `failed` (and nowhere else). -/

def CloneQueue.mark_failed (q : CloneQueue) (task : CloneTask) : CloneQueue :=
  { q with total_completed := q.total_completed + 1,
           failed := task.target_path :: q.failed }

/-! ## Discovery and the depth gate (`push_from_meta`)

`meta_core::config` (manifest location and parsing) and
`Path::exists` are external collaborators; they are modelled as an
oracle `World`.  Worlds model runs in which every located manifest
parses; a parse failure in the Rust code aborts `push_from_meta` with an
error before any further admission, so it cannot admit tasks either. -/

/-- A manifest project as produced by `meta_core::config::parse_meta_config`,
restricted to the fields `push_from_meta` reads. -/

structure Project where
  name : String
  path : String
  repo : Option String
  meta : Bool
deriving DecidableEq, Repr

/-- Filesystem / manifest oracle: `config d` is the parsed project list of
the manifest found in directory `d` (`find_meta_config_in` +
`parse_meta_config`), and `pathExists` is `Path::exists`. -/

structure World where
  config : List String → Option (List Project)
  pathExists : List String → Bool

/-- `CloneQueue::push_from_meta` (clone_queue.rs lines 81-148).  `fuel`
bounds the nesting of manifests on disk (the Rust recursion is bounded by
the finite directory tree); exhausted fuel returns zero with the queue
unchanged. -/

def push_from_meta (w : World) : Nat → CloneQueue → List String → Nat → Nat × CloneQueue
  | 0, q, _, _ => (0, q)
  | fuel + 1, q, base_dir, depth_level =>
    if (match q.meta_depth with
        | some max_depth => decide (depth_level > max_depth)
        | none => false) then
      (0, q)
    else
      match w.config base_dir with
      | none => (0, q)
      | some projects =>
        projects.foldl (fun acc project =>
          let target := base_dir ++ [project.path]
          if w.pathExists target then
            if (w.config target).isSome then
              let r := push_from_meta w fuel acc.2 target (depth_level + 1)
              (acc.1 + r.1, r.2)
            else acc
          else
            match project.repo with
            | none => acc
            | some url =>
              let r := acc.2.push ⟨project.name, url, target, depth_level, project.meta⟩
              (if r.1 then acc.1 + 1 else acc.1, r.2))
          (0, q)

/-- Invariant used for the depth gate: relative to a start queue `q0`
with `meta_depth = some k`, every pending task of `q1` either was there
already or sits at depth at most `k`. -/

def DepthInv (k : Nat) (q0 q1 : CloneQueue) : Prop :=
  q1.meta_depth = some k ∧
  ∀ t ∈ q1.pending, t ∈ q0.pending ∨ t.depth_level ≤ k

/-- A concrete one-manifest world for the depth-gate witness. -/

def gateWorld : World where
  config := fun dir =>
    if dir = ([] : List String) then
      some [⟨"a", "a", some "git@h:o/a.git", false⟩]
    else none
  pathExists := fun _ => false

/-! ## URL canonicaliser (`src/ssh_multiplexing.rs`)

Strings are modelled at character granularity (`List Char`).  The Rust
`str::trim` removes Unicode whitespace; the model uses
`Char.isWhitespace`, which covers the ASCII whitespace that can occur
around git URLs. -/

/-- A Rust string at character granularity. -/

abbrev Str := List Char

/-- Lift a Lean string literal into the model. -/

def str (s : String) : Str := s.data

/-- Left half of `str::trim`. -/

def trimLeft (s : Str) : Str := s.dropWhile Char.isWhitespace

/-- Right half of `str::trim`. -/

def trimRight (s : Str) : Str := (s.reverse.dropWhile Char.isWhitespace).reverse

/-- `str::trim`. -/

def trimS (s : Str) : Str := trimRight (trimLeft s)

/-- `str::ends_with(suffix)`. -/

def endsWithS (s suffix : Str) : Bool := suffix.isSuffixOf s

/-- `str::starts_with(pre)`. -/

def startsWithS (s pre : Str) : Bool := pre.isPrefixOf s

/-- `if s.ends_with(".git") { s.truncate(s.len() - 4); }` -/

def stripDotGit (s : Str) : Str :=
  if endsWithS s (str ".git") then s.take (s.length - 4) else s

/-- `while s.ends_with('/') { s.pop(); }` -/

def dropTrailingSlashes (s : Str) : Str :=
  (s.reverse.dropWhile (· == '/')).reverse

/-- `str::find(c)`: index of the first occurrence. -/

def findCharIdx (c : Char) : Str → Option Nat
  | [] => none
  | a :: s => if a == c then some 0 else (findCharIdx c s).map (· + 1)

/-- `str::rfind(c)`: index of the last occurrence. -/

def rfindCharIdx (c : Char) (s : Str) : Option Nat :=
  match findCharIdx c s.reverse with
  | some i => some (s.length - 1 - i)
  | none => none

/-- `str::strip_prefix(pre)`. -/

def stripPrefixS (s pre : Str) : Option Str :=
  if pre.isPrefixOf s then some (s.drop pre.length) else none

/-- Port stripping inside the `ssh://` rewrite (ssh_multiplexing.rs
lines 159-168): drop a final `:<digits>` from the host part. -/

def hostNoPort (host_part : Str) : Str :=
  match rfindCharIdx ':' host_part with
  | some colon_pos =>
    if (host_part.drop (colon_pos + 1)).all Char.isDigit then
      host_part.take colon_pos
    else host_part
  | none => host_part

/-- User defaulting inside the `ssh://` rewrite (ssh_multiplexing.rs
lines 170-174): prepend `git@` when no user is present. -/

def withUser (host_no_port : Str) : Str :=
  if host_no_port.contains '@' then host_no_port
  else str "git@" ++ host_no_port

/-- Body of the `ssh://` rewrite once the first slash of `rest` is
located (ssh_multiplexing.rs lines 155-175):
`format!("{with_user}:{path}")`. -/

def scpRewrite (rest : Str) (slash_pos : Nat) : Str :=
  withUser (hostNoPort (rest.take slash_pos)) ++ ':' :: rest.drop (slash_pos + 1)

/-- The `ssh://[user@]host[:port]/path → user@host:path` rewriting step
of `normalize_git_url` (ssh_multiplexing.rs lines 152-177). -/

def sshToScp (s : Str) : Str :=
  match stripPrefixS s (str "ssh://") with
  | none => s
  | some rest =>
    match findCharIdx '/' rest with
    | none => s
    | some slash_pos => scpRewrite rest slash_pos

/-- `normalize_git_url` (ssh_multiplexing.rs lines 140-180): trim, strip
one trailing `.git`, strip trailing slashes, rewrite `ssh://` URLs to
SCP form. -/

def normalize_git_url (url : Str) : Str :=
  sshToScp (dropTrailingSlashes (stripDotGit (trimS url)))

/-- `urls_match` (ssh_multiplexing.rs lines 206-208). -/

def urls_match (a b : Str) : Bool :=
  normalize_git_url a == normalize_git_url b

/-! ## Worktree git operations (`src/worktree/git_ops.rs`)

The `git` binary is an external collaborator; a repository is modelled
by an oracle giving the outcome of each invocation. -/

/-- Oracle for one source repository: `refExists r` is the success of
`git rev-parse --verify r`; `addSucceeds args` the success of a
`git <args>` worktree-add invocation. -/

structure WtRepo where
  refExists : String → Bool
  addSucceeds : List String → Bool

/-- The argument vector chosen by `git_worktree_add` when no `from_ref`
is given (git_ops.rs lines 59-105). -/

def wt_args (repo : WtRepo) (dest branch : String) : List String :=
  let branch_exists := repo.refExists ("refs/heads/" ++ branch)
  let remote_branch_exists :=
    if !branch_exists then repo.refExists ("refs/remotes/origin/" ++ branch)
    else false
  if branch_exists then
    ["worktree", "add", dest, branch]
  else if remote_branch_exists then
    ["worktree", "add", "--track", "-b", branch, dest, "origin/" ++ branch]
  else
    ["worktree", "add", "-b", branch, dest]

/-- `git_worktree_add` (git_ops.rs lines 9-125), returning
`created_branch = !branch_exists && !remote_branch_exists`
(line 123). -/

def git_worktree_add (repo : WtRepo) (dest branch : String)
    (from_ref : Option String) : Except String Bool :=
  match from_ref with
  | some ref_name =>
    if repo.refExists ref_name then
      if repo.addSucceeds ["worktree", "add", "-b", branch, dest, ref_name] then
        Except.ok true
      else Except.error "git worktree add failed"
    else Except.error "Ref not found in repo"
  | none =>
    let branch_exists := repo.refExists ("refs/heads/" ++ branch)
    let remote_branch_exists :=
      if !branch_exists then repo.refExists ("refs/remotes/origin/" ++ branch)
      else false
    if repo.addSucceeds (wt_args repo dest branch) then
      Except.ok (!branch_exists && !remote_branch_exists)
    else Except.error "git worktree add failed"

/-- Repo in which `feat` exists only as `refs/remotes/origin/feat` and
every worktree-add invocation succeeds. -/

def trackRepo : WtRepo where
  refExists := fun r => r == "refs/remotes/origin/feat"
  addSucceeds := fun _ => true

/-- Repo in which `feat` exists as `refs/heads/feat`. -/

def localRepo : WtRepo where
  refExists := fun r => r == "refs/heads/feat"
  addSucceeds := fun _ => true

/-- A registered worktree repository
(`meta_cli::worktree::WorktreeRepoInfo`), restricted to the fields
`remove_worktree_repos` reads. -/

structure WorktreeRepoInfo where
  aliasName : String
  branch : String
  path : String
  source_path : String
deriving Repr

/-- The child-removal loop of `remove_worktree_repos` (git_ops.rs lines
267-284): invoke `git_worktree_remove` on each repo in order; in force
mode count failures and continue, otherwise abort on the first failure.
Returns the result together with the trace of aliases on which
`git_worktree_remove` was invoked, in invocation order. -/

def remove_children (ok : WorktreeRepoInfo → Bool) (force : Bool) :
    List WorktreeRepoInfo → Except String Nat × List String
  | [] => (Except.ok 0, [])
  | r :: rs =>
    if ok r then
      let res := remove_children ok force rs
      (res.1, r.aliasName :: res.2)
    else if force then
      let res := remove_children ok force rs
      (res.1.map (· + 1), r.aliasName :: res.2)
    else
      (Except.error "git worktree remove failed", [r.aliasName])

/-- `remove_worktree_repos` (git_ops.rs lines 260-302): remove all
repos with alias `≠ "."` first, then the first repo with alias `"."`
last. -/

def remove_worktree_repos (ok : WorktreeRepoInfo → Bool)
    (repos : List WorktreeRepoInfo) (force : Bool) :
    Except String Nat × List String :=
  let children := repos.filter (fun r => r.aliasName != ".")
  let res := remove_children ok force children
  match res.1 with
  | Except.error e => (Except.error e, res.2)
  | Except.ok failures =>
    match repos.find? (fun r => r.aliasName == ".") with
    | none => (Except.ok failures, res.2)
    | some r =>
      if ok r then (Except.ok failures, res.2 ++ [r.aliasName])
      else if force then (Except.ok (failures + 1), res.2 ++ [r.aliasName])
      else (Except.error "git worktree remove failed", res.2 ++ [r.aliasName])

/-! ## Snapshot restore (`src/snapshot.rs`) -/

/-- `str::contains(needle)`. -/

def containsSub : Str → Str → Bool
  | hay, needle =>
    needle.isPrefixOf hay ||
      match hay with
      | [] => false
      | _ :: t => containsSub t needle

/-- `RepoState` (snapshot.rs lines 19-29); `stash_created` is set only
after restore and is not read by `restore_repo_state`. -/

structure RepoState where
  sha : Str
  branch : Option Str
  dirty : Bool
deriving DecidableEq, Repr

/-- `RestoreResult` (snapshot.rs lines 53-58). -/

structure RestoreResult where
  repo : Str
  success : Bool
  stashed : Bool
  message : Str
deriving DecidableEq, Repr

/-- The git mutation commands `restore_repo_state` can issue. -/

inductive GitCmd
  | stashPush
  | checkoutSha
  | checkoutB
deriving DecidableEq, Repr

/-- Oracle for the git subprocess during restore of one repo:
`is_dirty` is `git_utils::is_dirty(..).unwrap_or(false)`, the rest are
the outcomes of `git stash push`, `git checkout <sha>` and
`git checkout -B <branch> <sha>`. -/

structure SnapGit where
  is_dirty : Bool
  stash_ok : Bool
  stash_stderr : Str
  checkout_ok : Bool
  checkout_stderr : Str
  branch_ok : Bool

/-- `&state.sha[..8]`: Rust byte slicing panics when the SHA has fewer
than 8 bytes; `none` models the panic.  (For the ASCII SHAs of the
claims, bytes and characters agree.) -/

def shaSlice8 (sha : Str) : Option Str :=
  if 8 ≤ sha.length then some (sha.take 8) else none

/-- Checkout-and-rebranch phase of `restore_repo_state` (snapshot.rs
lines 132-200), entered after the optional stash; `trace` carries the
commands already issued.  The first component is the returned
`RestoreResult` (`Ok(..)` in Rust — the function never aborts the whole
restore here), with `none` modelling the `&state.sha[..8]` panic. -/

def checkout_phase (g : SnapGit) (repo_name : Str) (state : RepoState)
    (stashed : Bool) (trace : List GitCmd) :
    Option RestoreResult × List GitCmd :=
  let trace := trace ++ [GitCmd.checkoutSha]
  if !g.checkout_ok then
    if containsSub g.checkout_stderr (str "did not match any") ||
        containsSub g.checkout_stderr (str "not a commit") then
      match shaSlice8 state.sha with
      | none => (none, trace)
      | some sha8 =>
        (some ⟨repo_name, false, stashed,
          str "SHA " ++ sha8 ++
            str " no longer exists. Check git reflog for recovery options."⟩,
         trace)
    else
      (some ⟨repo_name, false, stashed,
        str "Failed to checkout: " ++ g.checkout_stderr⟩, trace)
  else
    match state.branch with
    | some branch =>
      let trace := trace ++ [GitCmd.checkoutB]
      match shaSlice8 state.sha with
      | none => (none, trace)
      | some sha8 =>
        if !g.branch_ok then
          (some ⟨repo_name, true, stashed,
            str "Restored to " ++ sha8 ++
              str " (couldn\x27t restore branch \x27" ++ branch ++ str "\x27)"⟩,
           trace)
        else
          (some ⟨repo_name, true, stashed, sha8 ++ str " -> " ++ branch⟩, trace)
    | none =>
      match shaSlice8 state.sha with
      | none => (none, trace)
      | some sha8 =>
        (some ⟨repo_name, true, stashed, sha8 ++ str " (detached)"⟩, trace)

/-- `restore_repo_state` (snapshot.rs lines 93-201): stash when dirty
(recording a failed stash as a per-repo failure), then check out the
snapshot SHA and restore the branch pointer.  `repo_name` is the
file-name component of the repo path. -/

def restore_repo_state (g : SnapGit) (repo_name : Str) (state : RepoState)
    (_force : Bool) : Option RestoreResult × List GitCmd :=
  if g.is_dirty then
    if !g.stash_ok then
      (some ⟨repo_name, false, false,
        str "Failed to stash: " ++ g.stash_stderr⟩,
       [GitCmd.stashPush])
    else
      checkout_phase g repo_name state true [GitCmd.stashPush]
  else
    checkout_phase g repo_name state false []

/-- Concrete oracle for the C6 witness: clean repo, checkout fails with
a SHA-unknown message. -/

def shaGoneGit : SnapGit where
  is_dirty := false
  stash_ok := true
  stash_stderr := []
  checkout_ok := false
  checkout_stderr :=
    str "error: pathspec \x27deadbeef\x27 did not match any file(s) known to git"
  branch_ok := true

/-- Oracle for the C10 panic path: clean repo, checkout succeeds. -/

def cleanGit : SnapGit where
  is_dirty := false
  stash_ok := true
  stash_stderr := []
  checkout_ok := true
  checkout_stderr := []
  branch_ok := true

/-! ## Registry store TTL arithmetic (`src/worktree/store.rs`)

`i64` arithmetic is modelled with explicit twos-complement wrapping
(Rust release-mode semantics); the RFC3339 parser of `chrono` is an external
collaborator modelled as an oracle `parse`, with `none` for a parse
error. -/

/-- `i64::MAX`. -/

def I64_MAX : Int := 2 ^ 63 - 1

/-- Twos-complement wrap of an `i64` operation result. -/

def wrap64 (n : Int) : Int := (n + 2 ^ 63) % 2 ^ 64 - 2 ^ 63

/-- `ttl as i64`: the `u64 → i64` cast. -/

def u64_as_i64 (n : Nat) : Int := wrap64 n

/-- `WorktreeStoreEntry` (worktree/types.rs), restricted to the fields
`entry_ttl_remaining` reads (`repos` and `custom` are not consulted). -/

structure WorktreeStoreEntry where
  name : String
  project : String
  created_at : String
  ephemeral : Bool
  ttl_seconds : Option Nat
deriving Repr

/-- `entry_ttl_remaining` (store.rs lines 105-121): `none` when no TTL
is set; `i64::MAX` (do not expire) when `created_at` fails to parse;
otherwise `created + ttl as i64 - now_epoch`. -/

def entry_ttl_remaining (parse : String → Option Int)
    (entry : WorktreeStoreEntry) (now_epoch : Int) : Option Int :=
  entry.ttl_seconds.map (fun ttl =>
    match parse entry.created_at with
    | some created => wrap64 (wrap64 (created + u64_as_i64 ttl) - now_epoch)
    | none => I64_MAX)

/-- A concrete RFC3339 oracle for the C8 witness: `2025-01-01T00:00:00Z`
is epoch `1735689600`; everything else is malformed. -/

def rfcParse : String → Option Int :=
  fun s => if s = "2025-01-01T00:00:00Z" then some 1735689600 else none

/-! ## Theorems -/

/-- **C1.** `push` admits a task iff its target path is neither in
`completed` nor the target of a pending task; `total_discovered` grows by
one exactly on admission. -/

theorem push_admits_iff_fresh_and_counts (q : CloneQueue) (t : CloneTask) :
    ((q.push t).1 = true ↔
      (t.target_path ∉ q.completed ∧
        ∀ u ∈ q.pending, u.target_path ≠ t.target_path)) ∧
    (q.push t).2.total_discovered =
      q.total_discovered + (if (q.push t).1 then 1 else 0) := by
  by_cases hc : q.completed.contains t.target_path
  · have h1 : q.push t = (false, q) := by
      simp only [CloneQueue.push]
      rw [if_pos hc]
    rw [h1]
    refine ⟨?_, by simp⟩
    exact iff_of_false (by simp) (fun h => h.1 (List.elem_iff.mp hc))
  · by_cases hp : q.pending.any (fun u => u.target_path == t.target_path)
    · have h1 : q.push t = (false, q) := by
        simp only [CloneQueue.push]
        rw [if_neg hc, if_pos hp]
      rw [h1]
      refine ⟨?_, by simp⟩
      refine iff_of_false (by simp) (fun h => ?_)
      rcases List.any_eq_true.mp hp with ⟨u, hu, hequ⟩
      exact h.2 u hu (by simpa using hequ)
    · have h1 : q.push t =
        (true, { q with pending := q.pending ++ [t],
                        total_discovered := q.total_discovered + 1 }) := by
        simp only [CloneQueue.push]
        rw [if_neg hc, if_neg hp]
      rw [h1]
      refine ⟨?_, by simp⟩
      refine iff_of_true rfl ⟨fun hmem => hc (List.elem_iff.mpr hmem), ?_⟩
      intro u hu hequ
      exact hp (List.any_eq_true.mpr ⟨u, hu, by simpa using hequ⟩)

/-- **C9.** `mark_failed` records the target path only in `failed`
(`completed` and `pending` are untouched), and since `push` consults only
`completed` and `pending`, a task with the same target path as a
previously failed one is admitted again and counted again by
`total_discovered`: witnessed by the concrete sequence
`push t; take_one; mark_failed t; push t2` with
`t2.target_path = t.target_path`. -/

theorem mark_failed_does_not_block_readmission :
    (∀ (q : CloneQueue) (t : CloneTask),
        (q.mark_failed t).completed = q.completed ∧
        (q.mark_failed t).failed = t.target_path :: q.failed ∧
        (q.mark_failed t).pending = q.pending) ∧
    (let t : CloneTask := ⟨"repo1", "u1", ["p"], 0, false⟩
     let t2 : CloneTask := ⟨"repo1-retry", "u2", ["p"], 0, false⟩
     let q1 := ((CloneQueue.new none none).push t).2
     let q3 := ((q1.take_one).2).mark_failed t
     ((CloneQueue.new none none).push t).1 = true ∧
     (q1.take_one).1 = some t ∧
     (q3.push t2).1 = true ∧
     (q3.push t2).2.total_discovered = 2) := by
  refine ⟨fun q t => ⟨rfl, rfl, rfl⟩, by decide, by decide, by decide, by decide⟩

lemma DepthInv.rfl {k : Nat} {q : CloneQueue} (h : q.meta_depth = some k) :
    DepthInv k q q :=
  ⟨h, fun _ ht => Or.inl ht⟩

lemma DepthInv.comp {k : Nat} {q0 q1 q2 : CloneQueue}
    (h01 : DepthInv k q0 q1) (h12 : DepthInv k q1 q2) : DepthInv k q0 q2 := by
  refine ⟨h12.1, fun t ht => ?_⟩
  rcases h12.2 t ht with h | h
  · exact h01.2 t h
  · exact Or.inr h

lemma DepthInv.push {k : Nat} {q0 q1 : CloneQueue} (h : DepthInv k q0 q1)
    (t : CloneTask) (ht : t.depth_level ≤ k) :
    DepthInv k q0 (q1.push t).2 := by
  unfold CloneQueue.push
  split
  · exact h
  · split
    · exact h
    · refine ⟨h.1, fun u hu => ?_⟩
      rcases List.mem_append.mp hu with h' | h'
      · exact h.2 u h'
      · rcases List.mem_singleton.mp h' with rfl
        exact Or.inr ht

lemma push_from_meta_inv (w : World) (k : Nat) :
    ∀ (fuel : Nat) (q : CloneQueue) (base : List String) (d : Nat),
      q.meta_depth = some k →
      DepthInv k q (push_from_meta w fuel q base d).2 := by
  intro fuel
  induction fuel with
  | zero =>
    intro q base d h
    exact DepthInv.rfl h
  | succ fuel ih =>
    intro q base d h
    unfold push_from_meta
    rw [h]
    by_cases hd : d > k
    · rw [if_pos (by simpa using hd)]
      exact DepthInv.rfl h
    · rw [if_neg (by simpa using hd)]
      cases hcfg : w.config base with
      | none => exact DepthInv.rfl h
      | some projects =>
        -- fold invariant over the project list
        suffices hfold : ∀ (ps : List Project) (acc : Nat × CloneQueue),
            DepthInv k q acc.2 →
            DepthInv k q (ps.foldl (fun acc project =>
              let target := base ++ [project.path]
              if w.pathExists target then
                if (w.config target).isSome then
                  let r := push_from_meta w fuel acc.2 target (d + 1)
                  (acc.1 + r.1, r.2)
                else acc
              else
                match project.repo with
                | none => acc
                | some url =>
                  let r := acc.2.push ⟨project.name, url, target, d, project.meta⟩
                  (if r.1 then acc.1 + 1 else acc.1, r.2)) acc).2 by
          exact hfold projects (0, q) (DepthInv.rfl h)
        intro ps
        induction ps with
        | nil => intro acc hacc; exact hacc
        | cons p ps ihp =>
          intro acc hacc
          simp only [List.foldl_cons]
          apply ihp
          by_cases hex : w.pathExists (base ++ [p.path])
          · rw [if_pos hex]
            by_cases hc2 : (w.config (base ++ [p.path])).isSome
            · rw [if_pos hc2]
              exact hacc.comp (ih acc.2 (base ++ [p.path]) (d + 1) hacc.1)
            · rw [if_neg hc2]
              exact hacc
          · rw [if_neg hex]
            cases hrepo : p.repo with
            | none => exact hacc
            | some url =>
              exact hacc.push _ (Nat.le_of_not_lt hd)

lemma push_from_meta_gate (w : World) (fuel : Nat) (q : CloneQueue)
    (base : List String) (d k : Nat) (hk : q.meta_depth = some k) (hd : d > k) :
    push_from_meta w fuel q base d = (0, q) := by
  cases fuel with
  | zero => rfl
  | succ fuel =>
    unfold push_from_meta
    rw [hk]
    rw [if_pos (by simpa using hd)]

/-- **C4.** With `meta_depth = some k`, `push_from_meta` at
`depth_level > k` returns zero leaving the queue unchanged, and every
task ever present in `pending` after a `push_from_meta` either was
pending before or has `depth_level ≤ k` — no task above the gate is ever
admitted. -/

theorem meta_depth_gate (w : World) (fuel : Nat) (q : CloneQueue)
    (base : List String) (d k : Nat) (hk : q.meta_depth = some k) :
    (d > k → push_from_meta w fuel q base d = (0, q)) ∧
    ∀ t ∈ (push_from_meta w fuel q base d).2.pending,
      t ∈ q.pending ∨ t.depth_level ≤ k :=
  ⟨fun hd => push_from_meta_gate w fuel q base d k hk hd,
   (push_from_meta_inv w k fuel q base d hk).2⟩

/-- Witness for `meta_depth_gate` at a concrete world and queue. -/

theorem meta_depth_gate_witness :
    push_from_meta gateWorld 2 (CloneQueue.new none (some 0)) [] 1
        = (0, CloneQueue.new none (some 0)) ∧
    (CloneTask.mk "a" "git@h:o/a.git" ["a"] 0 false
        ∈ (CloneQueue.new none (some 0)).pending ∨
      (CloneTask.mk "a" "git@h:o/a.git" ["a"] 0 false).depth_level ≤ 0) :=
  ⟨(meta_depth_gate gateWorld 2 (CloneQueue.new none (some 0)) [] 1 0 rfl).1
      (by decide),
   (meta_depth_gate gateWorld 2 (CloneQueue.new none (some 0)) [] 0 0 rfl).2
      (CloneTask.mk "a" "git@h:o/a.git" ["a"] 0 false) (by decide)⟩

/-- **C5.** The SCP form and the `ssh://` form with explicit numeric
port 22 match; the `https://` form of the same path does not match the
SCP form. -/

theorem urls_match_scp_ssh_not_https :
    urls_match (str "git@github.com:o/r.git")
        (str "ssh://git@github.com:22/o/r") = true ∧
    urls_match (str "git@github.com:o/r.git")
        (str "https://github.com/o/r") = false := by
  constructor
  · decide
  · decide

/-- **C3 counterexample.** Normalisation strips only one trailing
`.git`, so it is not idempotent: on `"git@github.com:o/r.git.git"` one
pass yields `"git@github.com:o/r.git"` and a second pass strips again. -/

theorem normalize_git_url_not_idempotent :
    normalize_git_url (normalize_git_url (str "git@github.com:o/r.git.git")) ≠
      normalize_git_url (str "git@github.com:o/r.git.git") := by
  decide

/-! Lemmas towards the amended idempotence claim: a normalised URL whose
form is trim-stable and does not end in `.git` is a fixed point of
`normalize_git_url`. -/

lemma head?_dropWhile_not (p : Char → Bool) (l : Str) (a : Char)
    (h : (l.dropWhile p).head? = some a) : p a = false := by
  induction l with
  | nil => simp [List.dropWhile] at h
  | cons b l ih =>
    rw [List.dropWhile_cons] at h
    by_cases hb : p b
    · rw [if_pos hb] at h
      exact ih h
    · rw [if_neg hb] at h
      simp only [List.head?_cons, Option.some.injEq] at h
      rw [← h]
      exact (Bool.not_eq_true (p b)).mp hb

lemma dropTrailingSlashes_getLast (s : Str) (c : Char)
    (h : (dropTrailingSlashes s).getLast? = some c) : (c == '/') = false := by
  unfold dropTrailingSlashes at h
  rw [List.getLast?_reverse] at h
  exact head?_dropWhile_not (fun x => x == '/') s.reverse c h

lemma dropTrailingSlashes_eq_self (s : Str)
    (h : ∀ c, s.getLast? = some c → (c == '/') = false) :
    dropTrailingSlashes s = s := by
  unfold dropTrailingSlashes
  cases hr : s.reverse with
  | nil =>
    rw [List.reverse_eq_nil_iff] at hr
    simp [hr]
  | cons c t =>
    have hc : s.getLast? = some c := by
      rw [← List.head?_reverse, hr]
      rfl
    have hcf : (c == '/') = false := h c hc
    calc ((c :: t).dropWhile (fun x => x == '/')).reverse
        = (c :: t).reverse := by rw [List.dropWhile_cons, if_neg (by simp [hcf])]
      _ = s := by rw [← hr, List.reverse_reverse]

lemma getLast?_drop_of_ne_nil : ∀ (l : Str) (n : Nat), l.drop n ≠ [] →
    (l.drop n).getLast? = l.getLast?
  | _, 0, _ => rfl
  | [], _ + 1, _ => rfl
  | a :: l, n + 1, h => by
    rw [List.drop_succ_cons] at h ⊢
    rw [getLast?_drop_of_ne_nil l n h]
    cases l with
    | nil => simp at h
    | cons b u => exact List.getLast?_cons_cons.symm

lemma findCharIdx_not_mem_take (c : Char) :
    ∀ (s : Str) (n : Nat), findCharIdx c s = some n → c ∉ s.take n
  | [], n, h => by simp [findCharIdx] at h
  | a :: s, n, h => by
    rw [findCharIdx] at h
    by_cases ha : a == c
    · rw [if_pos ha] at h
      have hn : n = 0 := by simpa using h.symm
      subst hn
      simp
    · rw [if_neg ha] at h
      rcases Option.map_eq_some'.mp h with ⟨m, hm, hn⟩
      subst hn
      rw [List.take_succ_cons]
      intro hmem
      rcases List.mem_cons.mp hmem with rfl | hmem
      · exact ha (by simp)
      · exact findCharIdx_not_mem_take c s m hm hmem

lemma stripPrefixS_pos {s pre : Str} (h : pre.isPrefixOf s = true) :
    stripPrefixS s pre = some (s.drop pre.length) := by
  unfold stripPrefixS
  rw [if_pos h]

lemma stripPrefixS_neg {s pre : Str} (h : pre.isPrefixOf s = false) :
    stripPrefixS s pre = none := by
  unfold stripPrefixS
  rw [if_neg (by simp [h])]

lemma ssh_marker_length : (str "ssh://").length = 6 := rfl

lemma sshToScp_of_not_ssh {s : Str}
    (h : (str "ssh://").isPrefixOf s = false) : sshToScp s = s := by
  unfold sshToScp
  rw [stripPrefixS_neg h]

lemma sshToScp_of_no_slash {s : Str}
    (h : findCharIdx '/' (s.drop 6) = none) : sshToScp s = s := by
  cases hpre : (str "ssh://").isPrefixOf s with
  | false => exact sshToScp_of_not_ssh hpre
  | true =>
    unfold sshToScp
    rw [stripPrefixS_pos hpre, ssh_marker_length]
    dsimp only
    rw [h]

lemma sshToScp_of_slash {s : Str} {sp : Nat}
    (hpre : (str "ssh://").isPrefixOf s = true)
    (h : findCharIdx '/' (s.drop 6) = some sp) :
    sshToScp s = scpRewrite (s.drop 6) sp := by
  unfold sshToScp
  rw [stripPrefixS_pos hpre, ssh_marker_length]
  dsimp only
  rw [h]

lemma hostNoPort_subset (h : Str) : hostNoPort h ⊆ h := by
  unfold hostNoPort
  cases rfindCharIdx ':' h with
  | none => exact fun x hx => hx
  | some colon_pos =>
    dsimp only
    split
    · exact List.take_subset _ _
    · exact fun x hx => hx

lemma withUser_mem_at (h : Str) : '@' ∈ withUser h := by
  unfold withUser
  split
  · next hc => exact List.elem_iff.mp hc
  · exact List.mem_append_left _ (by decide)

lemma withUser_not_mem (h : Str) (c : Char) (hc : c ∉ h)
    (hgit : c ∉ str "git@") : c ∉ withUser h := by
  unfold withUser
  split
  · exact hc
  · intro hm
    rcases List.mem_append.mp hm with hm | hm
    · exact hgit hm
    · exact hc hm

lemma not_ssh_prefix_of_scp {u path : Str} (hat : '@' ∈ u)
    (hslash : '/' ∉ u) :
    (str "ssh://").isPrefixOf (u ++ ':' :: path) = false := by
  by_contra hpre
  rw [Bool.not_eq_false] at hpre
  rw [ List.isPrefixOf_iff_prefix] at hpre
  rcases hpre with ⟨t, ht⟩
  have hs : str "ssh://" = ['s', 's', 'h', ':', '/', '/'] := rfl
  rw [hs] at ht
  simp only [List.cons_append, List.nil_append] at ht
  rcases u with _ | ⟨a, _ | ⟨b, _ | ⟨c, _ | ⟨d, _ | ⟨e, u'⟩⟩⟩⟩⟩
  · injection ht with h1 _
    exact absurd h1 (by decide)
  · simp only [List.cons_append, List.nil_append] at ht
    injection ht with h1 ht
    injection ht with h2 _
    exact absurd h2 (by decide)
  · simp only [List.cons_append, List.nil_append] at ht
    injection ht with h1 ht
    injection ht with h2 ht
    injection ht with h3 _
    exact absurd h3 (by decide)
  · simp only [List.cons_append, List.nil_append] at ht
    injection ht with h1 ht
    injection ht with h2 ht
    injection ht with h3 ht
    injection ht with h4 _
    rw [← h1, ← h2, ← h3] at hat
    exact absurd hat (by decide)
  · simp only [List.cons_append, List.nil_append] at ht
    injection ht with h1 ht
    injection ht with h2 ht
    injection ht with h3 ht
    injection ht with h4 ht
    injection ht with h5 _
    exact absurd h5 (by decide)
  · simp only [List.cons_append, List.nil_append] at ht
    injection ht with h1 ht
    injection ht with h2 ht
    injection ht with h3 ht
    injection ht with h4 ht
    injection ht with h5 _
    apply hslash
    rw [← h5]
    simp

lemma scpRewrite_not_ssh (rest : Str) (sp : Nat)
    (hf : findCharIdx '/' rest = some sp) :
    (str "ssh://").isPrefixOf (scpRewrite rest sp) = false := by
  unfold scpRewrite
  apply not_ssh_prefix_of_scp (withUser_mem_at _)
  apply withUser_not_mem
  · intro hm
    exact findCharIdx_not_mem_take '/' rest sp hf (hostNoPort_subset _ hm)
  · decide

lemma getLast?_append_of_ne_nil (l l' : Str) (h : l' ≠ []) :
    (l ++ l').getLast? = l'.getLast? := by
  rw [List.getLast?_append]
  rcases hq : l'.getLast? with _ | c
  · exact absurd (List.getLast?_eq_none_iff.mp hq) h
  · rfl

lemma sshToScp_getLast (s : Str)
    (hs : ∀ c, s.getLast? = some c → (c == '/') = false) :
    ∀ c, (sshToScp s).getLast? = some c → (c == '/') = false := by
  cases hpre : (str "ssh://").isPrefixOf s with
  | false =>
    rw [sshToScp_of_not_ssh hpre]
    exact hs
  | true =>
    cases hf : findCharIdx '/' (s.drop 6) with
    | none =>
      rw [sshToScp_of_no_slash hf]
      exact hs
    | some sp =>
      rw [sshToScp_of_slash hpre hf]
      intro c hc
      unfold scpRewrite at hc
      rw [getLast?_append_of_ne_nil _ _ (List.cons_ne_nil _ _)] at hc
      cases hpath : (s.drop 6).drop (sp + 1) with
      | nil =>
        rw [hpath] at hc
        simp only [List.getLast?_singleton, Option.some.injEq] at hc
        rw [← hc]
        decide
      | cons p ps =>
        rw [hpath, List.getLast?_cons_cons, ← hpath] at hc
        rw [List.drop_drop] at hc hpath
        rw [getLast?_drop_of_ne_nil s (6 + (sp + 1)) (by rw [hpath]; exact List.cons_ne_nil _ _)] at hc
        exact hs c hc

lemma normalize_getLast (x : Str) :
    ∀ c, (normalize_git_url x).getLast? = some c → (c == '/') = false := by
  unfold normalize_git_url
  exact sshToScp_getLast _ (fun c hc => dropTrailingSlashes_getLast _ c hc)

lemma normalize_ssh_no_slash (x : Str)
    (h : (str "ssh://").isPrefixOf (normalize_git_url x) = true) :
    findCharIdx '/' ((normalize_git_url x).drop 6) = none := by
  unfold normalize_git_url at h ⊢
  cases hpre : (str "ssh://").isPrefixOf
      (dropTrailingSlashes (stripDotGit (trimS x))) with
  | false =>
    rw [sshToScp_of_not_ssh hpre] at h
    rw [hpre] at h
    exact absurd h (by decide)
  | true =>
    cases hf : findCharIdx '/'
        ((dropTrailingSlashes (stripDotGit (trimS x))).drop 6) with
    | none =>
      rw [sshToScp_of_no_slash hf]
      exact hf
    | some sp =>
      rw [sshToScp_of_slash hpre hf] at h
      rw [scpRewrite_not_ssh _ sp hf] at h
      exact absurd h (by decide)

/-- **C3 amended.** Normalisation is idempotent on every input whose
normalised form is trim-stable and does not end in `.git` (the
counterexample `"….git.git"` shows the unconditional claim fails: a
single pass strips only one `.git` suffix). -/

theorem normalize_git_url_idempotent_amended (x : Str)
    (h1 : trimS (normalize_git_url x) = normalize_git_url x)
    (h2 : endsWithS (normalize_git_url x) (str ".git") = false) :
    normalize_git_url (normalize_git_url x) = normalize_git_url x := by
  have hlast := normalize_getLast x
  show sshToScp (dropTrailingSlashes (stripDotGit (trimS (normalize_git_url x))))
      = normalize_git_url x
  rw [h1]
  unfold stripDotGit
  rw [if_neg (by simp [h2])]
  rw [dropTrailingSlashes_eq_self _ hlast]
  cases hpre : (str "ssh://").isPrefixOf (normalize_git_url x) with
  | false => exact sshToScp_of_not_ssh hpre
  | true => exact sshToScp_of_no_slash (normalize_ssh_no_slash x hpre)

/-- Witness for the amended idempotence claim at a concrete `ssh://`
URL. -/

theorem normalize_git_url_idempotent_witness :
    trimS (normalize_git_url (str "ssh://git@github.com:22/o/r.git"))
        = normalize_git_url (str "ssh://git@github.com:22/o/r.git") ∧
    endsWithS (normalize_git_url (str "ssh://git@github.com:22/o/r.git"))
        (str ".git") = false ∧
    normalize_git_url
        (normalize_git_url (str "ssh://git@github.com:22/o/r.git"))
        = normalize_git_url (str "ssh://git@github.com:22/o/r.git") :=
  ⟨by decide, by decide,
   normalize_git_url_idempotent_amended _ (by decide) (by decide)⟩

/-- **C2.** With `refs/remotes/origin/feat` present and
`refs/heads/feat` absent, `git_worktree_add` issues the branch-creating
invocation `worktree add --track -b feat …` yet returns
`created_branch = false` (git_ops.rs line 123 computes
`!branch_exists && !remote_branch_exists`), against the documented
`created_branch = true`; with the local branch present it attaches it
and returns `false`, as documented. -/

theorem git_worktree_add_tracking_divergence :
    wt_args trackRepo "dest" "feat" =
        ["worktree", "add", "--track", "-b", "feat", "dest", "origin/feat"] ∧
    git_worktree_add trackRepo "dest" "feat" none = Except.ok false ∧
    wt_args localRepo "dest" "feat" = ["worktree", "add", "dest", "feat"] ∧
    git_worktree_add localRepo "dest" "feat" none = Except.ok false := by
  refine ⟨by decide, by rfl, by decide, by rfl⟩

lemma remove_children_trace (ok : WorktreeRepoInfo → Bool) (force : Bool) :
    ∀ (l : List WorktreeRepoInfo), (∀ r ∈ l, (r.aliasName != ".") = true) →
      ∀ a ∈ (remove_children ok force l).2, (a != ".") = true
  | [], _, a, ha => by simp [remove_children] at ha
  | r :: rs, h, a, ha => by
    have hr : (r.aliasName != ".") = true := h r (List.mem_cons_self r rs)
    have hrs : ∀ x ∈ rs, (x.aliasName != ".") = true :=
      fun x hx => h x (List.mem_cons_of_mem r hx)
    rw [remove_children] at ha
    by_cases hok : ok r
    · rw [if_pos hok] at ha
      rcases List.mem_cons.mp ha with rfl | ha
      · exact hr
      · exact remove_children_trace ok force rs hrs a ha
    · rw [if_neg hok] at ha
      by_cases hforce : force
      · rw [if_pos hforce] at ha
        rcases List.mem_cons.mp ha with rfl | ha
        · exact hr
        · exact remove_children_trace ok force rs hrs a ha
      · rw [if_neg hforce] at ha
        rcases List.mem_singleton.mp ha with rfl
        exact hr

lemma dropWhile_eq_nil_of_all {p : String → Bool} :
    ∀ (l : List String), (∀ a ∈ l, p a = true) → l.dropWhile p = []
  | [], _ => rfl
  | a :: l, h => by
    rw [List.dropWhile_cons, if_pos (h a (List.mem_cons_self a l))]
    exact dropWhile_eq_nil_of_all l (fun b hb => h b (List.mem_cons_of_mem a hb))

lemma dropWhile_append_of_all {p : String → Bool} :
    ∀ (l l' : List String), (∀ a ∈ l, p a = true) →
      (l ++ l').dropWhile p = l'.dropWhile p
  | [], _, _ => rfl
  | a :: l, l', h => by
    rw [List.cons_append, List.dropWhile_cons,
      if_pos (h a (List.mem_cons_self a l))]
    exact dropWhile_append_of_all l l' (fun b hb => h b (List.mem_cons_of_mem a hb))

/-- **C7.** Destroy ordering: in the removal trace of
`remove_worktree_repos`, every removal of the `"."` repo occurs after
every removal of a non-`"."` repo — once the trace reaches a `"."`
entry, all later entries are `"."`. -/

theorem remove_worktree_repos_dot_last (ok : WorktreeRepoInfo → Bool)
    (repos : List WorktreeRepoInfo) (force : Bool) :
    ((remove_worktree_repos ok repos force).2.dropWhile
        (fun a => a != ".")).all (fun a => a == ".") = true := by
  have hchild : ∀ a ∈ (remove_children ok force
      (repos.filter (fun r => r.aliasName != "."))).2, (a != ".") = true := by
    apply remove_children_trace
    intro r hr
    exact (List.mem_filter.mp hr).2
  unfold remove_worktree_repos
  dsimp only
  split
  · rw [dropWhile_eq_nil_of_all _ hchild]
    rfl
  · split
    · rw [dropWhile_eq_nil_of_all _ hchild]
      rfl
    · next r hfind =>
      have halias : r.aliasName = "." := by
        have := List.find?_some hfind
        simpa using this
      have htail : (((remove_children ok force
          (repos.filter (fun x => x.aliasName != "."))).2 ++ [r.aliasName]).dropWhile
            (fun a => a != ".")).all (fun a => a == ".") = true := by
        rw [dropWhile_append_of_all _ _ hchild, halias]
        decide
      split
      · exact htail
      · split
        · exact htail
        · exact htail

lemma containsSub_append_right (a b needle : Str)
    (h : containsSub b needle = true) : containsSub (a ++ b) needle = true := by
  induction a with
  | nil => exact h
  | cons x a ih =>
    rw [List.cons_append, containsSub]
    exact Bool.or_eq_true_iff.mpr (Or.inr ih)

lemma checkout_phase_sha_gone (g : SnapGit) (repo_name : Str)
    (state : RepoState) (stashed : Bool) (trace : List GitCmd)
    (hco : g.checkout_ok = false)
    (herr : (containsSub g.checkout_stderr (str "did not match any") ||
        containsSub g.checkout_stderr (str "not a commit")) = true)
    (hsha : 8 ≤ state.sha.length) :
    checkout_phase g repo_name state stashed trace =
      (some ⟨repo_name, false, stashed,
        str "SHA " ++ state.sha.take 8 ++
          str " no longer exists. Check git reflog for recovery options."⟩,
       trace ++ [GitCmd.checkoutSha]) := by
  unfold checkout_phase
  rw [hco]
  rw [if_pos (by decide)]
  rw [if_pos herr]
  unfold shaSlice8
  rw [if_pos hsha]

/-- **C6.** When `git checkout <sha>` fails and stderr reports the SHA
unknown (`did not match any` / `not a commit`), `restore_repo_state`
returns — rather than errors out — a per-repo result with
`success = false` whose message contains "no longer exists" (pointing
at the reflog), and the command trace stops at the failed checkout: no
recovery is attempted. -/

theorem restore_repo_state_sha_gone (g : SnapGit) (repo_name : Str)
    (state : RepoState) (force : Bool)
    (hstash : g.is_dirty = false ∨ g.stash_ok = true)
    (hco : g.checkout_ok = false)
    (herr : (containsSub g.checkout_stderr (str "did not match any") ||
        containsSub g.checkout_stderr (str "not a commit")) = true)
    (hsha : 8 ≤ state.sha.length) :
    ∃ r, restore_repo_state g repo_name state force =
        (some r,
         (if g.is_dirty then [GitCmd.stashPush] else []) ++ [GitCmd.checkoutSha]) ∧
      r.success = false ∧
      containsSub r.message (str "no longer exists") = true := by
  have hmsg : containsSub
      (str "SHA " ++ state.sha.take 8 ++
        str " no longer exists. Check git reflog for recovery options.")
      (str "no longer exists") = true := by
    apply containsSub_append_right
    decide
  refine ⟨⟨repo_name, false, if g.is_dirty then true else false,
    str "SHA " ++ state.sha.take 8 ++
      str " no longer exists. Check git reflog for recovery options."⟩,
    ?_, rfl, hmsg⟩
  unfold restore_repo_state
  cases hd : g.is_dirty with
  | false =>
    rw [checkout_phase_sha_gone g repo_name state false [] hco herr hsha]
    rfl
  | true =>
    rcases hstash with hstash | hstash
    · rw [hd] at hstash
      exact absurd hstash (by decide)
    · rw [hstash]
      rw [if_pos (by decide)]
      rw [if_neg (by decide)]
      rw [checkout_phase_sha_gone g repo_name state true [GitCmd.stashPush]
        hco herr hsha]
      rfl

/-- Witness for `restore_repo_state_sha_gone` at a concrete oracle and
state. -/

theorem restore_repo_state_sha_gone_witness :
    (shaGoneGit.is_dirty = false ∨ shaGoneGit.stash_ok = true) ∧
    shaGoneGit.checkout_ok = false ∧
    (containsSub shaGoneGit.checkout_stderr (str "did not match any") ||
        containsSub shaGoneGit.checkout_stderr (str "not a commit")) = true ∧
    8 ≤ (str "deadbeefcafe").length ∧
    ∃ r, restore_repo_state shaGoneGit (str "repo")
          ⟨str "deadbeefcafe", some (str "main"), false⟩ false =
        (some r,
         (if shaGoneGit.is_dirty then [GitCmd.stashPush] else []) ++
           [GitCmd.checkoutSha]) ∧
      r.success = false ∧
      containsSub r.message (str "no longer exists") = true :=
  ⟨Or.inl rfl, rfl, by decide, by decide,
   restore_repo_state_sha_gone shaGoneGit (str "repo")
     ⟨str "deadbeefcafe", some (str "main"), false⟩ false (Or.inl rfl) rfl
     (by decide) (by decide)⟩

/-- **C10.** Every SHA-bearing restore message slices the first eight
bytes of the stored SHA: whenever `sha` has at least 8 characters the
function returns a `RestoreResult` on all paths, but on a state with a
shorter SHA (here `"abc123"`, as in a hand-edited snapshot) the slice
`&state.sha[..8]` is out of bounds and the function panics instead of
returning. -/

theorem restore_repo_state_sha_slice (g : SnapGit) (repo_name : Str)
    (state : RepoState) (force : Bool) :
    (8 ≤ state.sha.length →
      (restore_repo_state g repo_name state force).1.isSome = true) ∧
    (restore_repo_state cleanGit (str "repo")
        ⟨str "abc123", none, false⟩ false).1 = none := by
  constructor
  · intro hsha
    have h8 : shaSlice8 state.sha = some (state.sha.take 8) := by
      unfold shaSlice8
      rw [if_pos hsha]
    unfold restore_repo_state
    split
    · split
      · rfl
      · unfold checkout_phase
        split
        · split
          · rw [h8]
            rfl
          · rfl
        · split
          · rw [h8]
            dsimp only
            split <;> rfl
          · rw [h8]
            rfl
    · unfold checkout_phase
      split
      · split
        · rw [h8]
          rfl
        · rfl
      · split
        · rw [h8]
          dsimp only
          split <;> rfl
        · rw [h8]
          rfl
  · rfl

/-- Witness for the universal half of `restore_repo_state_sha_slice`. -/

theorem restore_repo_state_sha_slice_witness :
    8 ≤ (str "deadbeefcafe").length ∧
    (restore_repo_state cleanGit (str "repo")
        ⟨str "deadbeefcafe", none, false⟩ false).1.isSome = true :=
  ⟨by decide,
   (restore_repo_state_sha_slice cleanGit (str "repo")
     ⟨str "deadbeefcafe", none, false⟩ false).1 (by decide)⟩

lemma wrap64_eq_self {n : Int} (hlo : -(2 ^ 63) ≤ n) (hhi : n < 2 ^ 63) :
    wrap64 n = n := by
  unfold wrap64
  rw [Int.emod_eq_of_lt (by omega) (by omega)]
  omega

/-- **C8.** TTL arithmetic: the result is `none` exactly when
`ttl_seconds` is absent; with a TTL present and a parsable
`created_at` it is `created + ttl − now_epoch` (whenever the `i64`
operations do not overflow); with a malformed `created_at` it is
`i64::MAX`, so the entry never counts as expired. -/

theorem entry_ttl_remaining_spec (parse : String → Option Int)
    (entry : WorktreeStoreEntry) (now_epoch : Int) :
    (entry_ttl_remaining parse entry now_epoch = none ↔
      entry.ttl_seconds = none) ∧
    (∀ (ttl : Nat) (created : Int), entry.ttl_seconds = some ttl →
      parse entry.created_at = some created →
      (ttl : Int) < 2 ^ 63 →
      -(2 ^ 63) ≤ created + ttl ∧ created + ttl < 2 ^ 63 →
      -(2 ^ 63) ≤ created + ttl - now_epoch ∧
        created + ttl - now_epoch < 2 ^ 63 →
      entry_ttl_remaining parse entry now_epoch =
        some (created + ttl - now_epoch)) ∧
    (∀ ttl : Nat, entry.ttl_seconds = some ttl →
      parse entry.created_at = none →
      entry_ttl_remaining parse entry now_epoch = some I64_MAX) := by
  refine ⟨?_, ?_, ?_⟩
  · unfold entry_ttl_remaining
    exact Option.map_eq_none'
  · intro ttl created httl hparse httl64 hsum hres
    unfold entry_ttl_remaining
    rw [httl]
    simp only [Option.map_some']
    rw [hparse]
    dsimp only
    unfold u64_as_i64
    rw [wrap64_eq_self (by omega) httl64]
    rw [wrap64_eq_self hsum.1 hsum.2]
    rw [wrap64_eq_self hres.1 hres.2]
  · intro ttl httl hparse
    unfold entry_ttl_remaining
    rw [httl]
    simp only [Option.map_some']
    rw [hparse]

/-- Witness for `entry_ttl_remaining_spec` at a concrete entry: a
one-hour TTL created at `2025-01-01T00:00:00Z`, queried 30 minutes
later, leaves 1800 seconds. -/

theorem entry_ttl_remaining_spec_witness :
    (entry_ttl_remaining rfcParse
        ⟨"wt", "/p", "2025-01-01T00:00:00Z", true, some 3600⟩ 1735691400 =
      none ↔
      (WorktreeStoreEntry.mk "wt" "/p" "2025-01-01T00:00:00Z" true
          (some 3600)).ttl_seconds = none) ∧
    entry_ttl_remaining rfcParse
        ⟨"wt", "/p", "2025-01-01T00:00:00Z", true, some 3600⟩ 1735691400 =
      some 1800 ∧
    entry_ttl_remaining rfcParse
        ⟨"wt", "/p", "not-a-date", true, some 3600⟩ 1735691400 =
      some I64_MAX := by
  have h := entry_ttl_remaining_spec rfcParse
    ⟨"wt", "/p", "2025-01-01T00:00:00Z", true, some 3600⟩ 1735691400
  have h2 := entry_ttl_remaining_spec rfcParse
    ⟨"wt", "/p", "not-a-date", true, some 3600⟩ 1735691400
  refine ⟨h.1, ?_, ?_⟩
  · have := h.2.1 3600 1735689600 rfl (by decide)
      (by decide) (by constructor <;> decide) (by constructor <;> decide)
    simpa using this
  · exact h2.2.2 3600 rfl (by decide)

end MetaGit

